/-
Verification of the memory-conditioned planner
(src/project_01_memory_planner/memory_conditioned_planner.py).

Shallow embedding conventions:
* Python floats are modelled as exact rationals (ℚ) everywhere the source
  performs only field arithmetic and comparisons; the single transcendental
  operation (the half-life decay `0.5 ** x`) is modelled with the real
  power `Real.rpow`, so every definition downstream of it lives in ℝ
  (values computed in ℚ are cast into ℝ at the blend).
* Python dicts keyed by fingerprint are modelled as total functions
  `String → _` with the dict's absence/default behaviour made explicit
  (`Option` for `dict.get(k)` presence, `0` for `dict.get(k, 0)`).
* The wall clock (`time.time()`) is passed in explicitly as `now`.
* The durable JSONL file is modelled as the list of records it encodes;
  `json.dumps`/`json.loads` of a record dataclass is modelled as the
  identity round-trip.  The outcome of the durable disk write inside
  `append` (which in Python either succeeds or raises an `OSError` before
  any in-memory mutation happens) is modelled as an explicit `writeOk`
  boolean input.
* `random.random()` draws are passed in as an explicit rational `r`
  (Python guarantees `0 ≤ r < 1`), and `random.choice` as an index.
-/
import Mathlib

/-! ## Utilities (source: `normalize_step`, `jaccard_similarity`, `stable_hash`) -/

/-- Python `str.strip()`: drop leading and trailing whitespace
(modelled structurally on the character list so it evaluates in the
kernel). -/
def pyStrip (s : String) : String :=
  String.mk (((s.data.dropWhile Char.isWhitespace).reverse.dropWhile
    Char.isWhitespace).reverse)

/-- Python `str.lower()` (ASCII case mapping, which covers every input
exercised here). -/
def pyLower (s : String) : String :=
  String.mk (s.data.map Char.toLower)

/-- Split a character list at every character satisfying `p`, keeping
empty pieces (the semantics of splitting at each separator char). -/
def splitChars (p : Char → Bool) (l : List Char) : List (List Char) :=
  l.foldr
    (fun c acc =>
      if p c then [] :: acc
      else
        match acc with
        | [] => [[c]]
        | g :: gs => (c :: g) :: gs)
    [[]]

/-- Python `str.split()` with no separator: whitespace runs delimit the
pieces and empty pieces are dropped. -/
def pySplit (s : String) : List String :=
  ((splitChars Char.isWhitespace s.data).map String.mk).filter (fun w => w ≠ "")

/-- `normalize_step` from the source: `step.strip().lower()` followed by
`" ".join(s.split())` (split on whitespace runs, dropping empty pieces). -/
def normalize_step (step : String) : String :=
  let s := pyLower (pyStrip step)
  String.intercalate " " (pySplit s)

/-- `jaccard_similarity` from the source: sets built from the two tag lists;
`1.0` when both are empty, `0.0` when exactly one is empty, otherwise
`|A ∩ B| / |A ∪ B|`. -/
def jaccard_similarity (a b : List String) : ℚ :=
  let sa := a.toFinset
  let sb := b.toFinset
  if sa = ∅ ∧ sb = ∅ then 1
  else if sa = ∅ ∨ sb = ∅ then 0
  else ((sa ∩ sb).card : ℚ) / ((sa ∪ sb).card : ℚ)

def quoteChar : Char := Char.ofNat 34

def backslashChar : Char := Char.ofNat 92

/-- Minimal JSON string escaping, faithful to `json.dumps` on the
backslash and double-quote characters (the only escapes exercised by
printable-ASCII inputs). -/
def jsonEscape (s : String) : String :=
  s.foldl
    (fun acc c =>
      if c = backslashChar ∨ c = quoteChar then
        acc ++ String.singleton backslashChar ++ String.singleton c
      else acc ++ String.singleton c)
    ""

def jsonStringLit (s : String) : String :=
  String.singleton quoteChar ++ jsonEscape s ++ String.singleton quoteChar

/-- The canonical serialization used by `fingerprint_plan`:
`json.dumps(\x7b"goal": g, "steps": ss\x7d, sort_keys=True)` with the default
`", "` / `": "` separators ("goal" sorts before "steps"). -/
def canonicalJson (goal : String) (steps : List String) : String :=
  "\x7b" ++ jsonStringLit "goal" ++ ": " ++ jsonStringLit goal ++ ", " ++
    jsonStringLit "steps" ++ ": [" ++
    String.intercalate ", " (steps.map jsonStringLit) ++ "]\x7d"

/-- `MemoryConditionedPlanner.fingerprint_plan` from the source:
normalize the steps, lowercase/trim the goal, serialize canonically and
hash.  The hash itself (`stable_hash` = SHA-256 truncated to 16 hex
characters) is modelled as an arbitrary function `hash : String → String`,
since no claim depends on its value, only on its determinism. -/
def fingerprint_plan (hash : String → String) (goal : String) (steps : List String) : String :=
  let norm_steps := steps.map normalize_step
  hash (canonicalJson (pyLower (pyStrip goal)) norm_steps)

/-! ## Data model (source: `Plan`, `EpisodicRecord`, `PlanScoreBreakdown`) -/

structure Plan where
  goal : String
  context_tags : List String
  steps : List String
  deps : List (Nat × Nat)
  fingerprint : String
  deriving DecidableEq, Repr

/-- As in `generate_candidate_plans`, a plan's stored fingerprint is
computed from its goal and steps only. -/
def planFingerprint (hash : String → String) (p : Plan) : String :=
  fingerprint_plan hash p.goal p.steps

structure EpisodicRecord where
  fingerprint : String
  goal : String
  context_tags : List String
  steps : List String
  outcome : String
  score_delta : ℚ
  confidence_after : ℚ
  ts : ℚ
  notes : String
  deriving DecidableEq, Repr

structure PlanScoreBreakdown where
  base_confidence : ℚ
  memory_evidence : ℚ
  similarity : ℚ
  recency_weight : ℝ
  final_score : ℝ

/-! ## Episodic memory store (source: class `EpisodicMemory`) -/

/-- The in-memory indices of `EpisodicMemory`: the full record list plus
the five per-fingerprint dictionaries. -/
structure EpisodicMemory where
  records : List EpisodicRecord
  confidence : String → Option ℚ
  successes : String → Nat
  failures : String → Nat
  partials : String → Nat
  last_ts : String → Option ℚ
  context_history : String → List (List String)

/-- The state of a freshly-constructed store before `_load` runs. -/
def EpisodicMemory.empty : EpisodicMemory where
  records := []
  confidence := fun _ => none
  successes := fun _ => 0
  failures := fun _ => 0
  partials := fun _ => 0
  last_ts := fun _ => none
  context_history := fun _ => []

/-- `EpisodicMemory._index_record`: overwrite confidence and last-seen,
extend the context history, and bump exactly one of the three counters
(every outcome other than `"success"` and `"failure"` falls into the
`else` branch and is counted as partial). -/
def EpisodicMemory.index_record (m : EpisodicMemory) (rec : EpisodicRecord) : EpisodicMemory where
  records := m.records
  confidence := fun fp => if fp = rec.fingerprint then some rec.confidence_after else m.confidence fp
  successes := fun fp =>
    if rec.outcome = "success" ∧ fp = rec.fingerprint then m.successes fp + 1 else m.successes fp
  failures := fun fp =>
    if rec.outcome = "failure" ∧ fp = rec.fingerprint then m.failures fp + 1 else m.failures fp
  partials := fun fp =>
    if rec.outcome ≠ "success" ∧ rec.outcome ≠ "failure" ∧ fp = rec.fingerprint then
      m.partials fp + 1
    else m.partials fp
  last_ts := fun fp => if fp = rec.fingerprint then some rec.ts else m.last_ts fp
  context_history := fun fp =>
    if fp = rec.fingerprint then m.context_history fp ++ [rec.context_tags]
    else m.context_history fp

/-- One iteration of the `_load` loop (and the in-memory half of
`append`): `self.records.append(rec)` followed by `self._index_record(rec)`. -/
def EpisodicMemory.ingest (m : EpisodicMemory) (rec : EpisodicRecord) : EpisodicMemory :=
  EpisodicMemory.index_record { m with records := m.records ++ [rec] } rec

/-- `EpisodicMemory._load`: replay every record of the durable log, in
file order, through the ingest step, starting from the fresh state. -/
def EpisodicMemory.load (log : List EpisodicRecord) : EpisodicMemory :=
  log.foldl EpisodicMemory.ingest EpisodicMemory.empty

def EpisodicMemory.get_confidence (m : EpisodicMemory) (fingerprint : String) (default : ℚ) : ℚ :=
  (m.confidence fingerprint).getD default

structure Stats where
  success : Nat
  failure : Nat
  partialCount : Nat
  deriving DecidableEq, Repr

def EpisodicMemory.get_stats (m : EpisodicMemory) (fingerprint : String) : Stats where
  success := m.successes fingerprint
  failure := m.failures fingerprint
  partialCount := m.partials fingerprint

def EpisodicMemory.get_last_ts (m : EpisodicMemory) (fingerprint : String) : Option ℚ :=
  m.last_ts fingerprint

def EpisodicMemory.get_context_history (m : EpisodicMemory) (fingerprint : String) :
    List (List String) :=
  m.context_history fingerprint

/-- A store together with its durable log (the JSONL file contents,
modelled as the list of records it encodes). -/
structure StoreState where
  durable : List EpisodicRecord
  mem : EpisodicMemory

/-- `EpisodicMemory.__init__`: remember the path's current contents and
replay them (`_load`). -/
def openStore (file : List EpisodicRecord) : StoreState where
  durable := file
  mem := EpisodicMemory.load file

/-- The success path of `EpisodicMemory.append`: the durable write
succeeded, then the record is ingested into the in-memory index. -/
def StoreState.append (s : StoreState) (rec : EpisodicRecord) : StoreState where
  durable := s.durable ++ [rec]
  mem := s.mem.ingest rec

/-- `EpisodicMemory.append` with the durable write's outcome made
explicit.  In the source the `open/write` happens first; if it raises,
the exception propagates and the two in-memory mutations
(`records.append`, `_index_record`) never execute, so the caller observes
the error together with the unchanged state.  `none` in the second
component means no error, `some ()` means a durability failure
propagated. -/
def StoreState.appendDurable (s : StoreState) (rec : EpisodicRecord) (writeOk : Bool) :
    StoreState × Option Unit :=
  if writeOk then (s.append rec, none)
  else (s, some ())

/-! ## Planner (source: class `MemoryConditionedPlanner`) -/

structure MemoryConditionedPlanner where
  memory : EpisodicMemory
  decay_half_life_days : ℚ
  epsilon : ℚ
  seed : Nat

/-- `MemoryConditionedPlanner.__init__`: plain field assignment (the
source performs no validation whatsoever; `random.seed(seed)` is recorded
as the stored seed). -/
def MemoryConditionedPlanner.init (memory : EpisodicMemory) (decay_half_life_days : ℚ)
    (epsilon : ℚ) (seed : Nat) : MemoryConditionedPlanner where
  memory := memory
  decay_half_life_days := decay_half_life_days
  epsilon := epsilon
  seed := seed

/-- `MemoryConditionedPlanner._recency_weight`: `0.0` when the
fingerprint was never seen, otherwise `0.5 ** (age_days / half_life)`
with `age_days = max(0, now - last_ts) / 86400`, short-circuited to
`1.0` when the half-life is non-positive.  The real-exponent power is
`Real.rpow`. -/
noncomputable def recency_weight (decay_half_life_days : ℚ) (now : ℚ) (last_ts : Option ℚ) : ℝ :=
  match last_ts with
  | none => 0
  | some ts =>
    let age_seconds : ℚ := max 0 (now - ts)
    let age_days : ℚ := age_seconds / (60 * 60 * 24)
    if decay_half_life_days ≤ 0 then 1
    else ((0.5 : ℝ) ^ (((age_days / decay_half_life_days : ℚ) : ℝ)))

/-- `MemoryConditionedPlanner.score_plan`.  All four components are read
off the store exactly as in the source; the final blend is formed in ℝ
(because of the decay weight) and clamped to `[0, 1]`. -/
noncomputable def score_plan (m : EpisodicMemory) (decay_half_life_days : ℚ) (now : ℚ)
    (plan : Plan) : PlanScoreBreakdown :=
  let fp := plan.fingerprint
  let base_conf := m.get_confidence fp 0.5
  let stats := m.get_stats fp
  let total := stats.success + stats.failure + stats.partialCount
  let evidence : ℚ :=
    if total = 0 then 0
    else ((stats.success : ℚ) - (stats.failure : ℚ) + 0.25 * (stats.partialCount : ℚ)) /
      ((max 1 total : Nat) : ℚ)
  let ctx_hist := m.get_context_history fp
  let similarity : ℚ :=
    if ctx_hist = [] then 0
    else
      let sims := ctx_hist.map (fun past => jaccard_similarity plan.context_tags past)
      sims.sum / (sims.length : ℚ)
  let recency := recency_weight decay_half_life_days now (m.get_last_ts fp)
  let final : ℝ :=
    0.55 * (base_conf : ℝ) + 0.25 * (evidence : ℝ) * (0.5 + 0.5 * (similarity : ℝ)) +
      0.20 * recency
  { base_confidence := base_conf
    memory_evidence := evidence
    similarity := similarity
    recency_weight := recency
    final_score := max 0 (min 1 final) }

/-- One step of Python's `max(iterable, key=key)`: the running best is
replaced only when the new element's key is strictly greater. -/
noncomputable def pyMaxStep {α : Type} (key : α → ℝ) (acc : Option α) (p : α) : Option α :=
  match acc with
  | none => some p
  | some q => if key q < key p then some p else some q

/-- Python's `max(iterable, key=key)`: fold keeping the current best,
replacing it only on a strictly greater key, so the first element of
maximal key wins; `none` on an empty list (where Python raises
`ValueError`). -/
noncomputable def pyMaxBy {α : Type} (key : α → ℝ) (l : List α) : Option α :=
  l.foldl (pyMaxStep key) none

/-- Breakdown read back from the scored dictionary; the default is never
reached for plans that were scored (every plan in the list is). -/
noncomputable def scoredLookup (scored : String → Option PlanScoreBreakdown) (fp : String) :
    PlanScoreBreakdown :=
  (scored fp).getD
    { base_confidence := 0, memory_evidence := 0, similarity := 0, recency_weight := 0,
      final_score := 0 }

/-- The `scored` dictionary built by the first loop of `select_plan`:
`scored[p.fingerprint] = score_plan(p)` in list order (later plans with
the same fingerprint overwrite earlier ones, as a Python dict does). -/
noncomputable def scoredStep (m : EpisodicMemory) (decay_half_life_days : ℚ) (now : ℚ)
    (acc : String → Option PlanScoreBreakdown) (p : Plan) : String → Option PlanScoreBreakdown :=
  fun fp =>
    if fp = p.fingerprint then some (score_plan m decay_half_life_days now p) else acc fp

noncomputable def scoredDict (m : EpisodicMemory) (decay_half_life_days : ℚ) (now : ℚ)
    (plans : List Plan) : String → Option PlanScoreBreakdown :=
  plans.foldl (scoredStep m decay_half_life_days now) (fun _ => none)

/-- `MemoryConditionedPlanner.select_plan`.  `r` is the `random.random()`
draw (Python guarantees `0 ≤ r < 1`) and `i` resolves `random.choice` as
an index into the list.  On the exploit branch the chosen plan is
`max(plans, key=lambda p: scored[p.fingerprint].final_score)`. -/
noncomputable def select_plan (P : MemoryConditionedPlanner) (now : ℚ) (r : ℚ) (i : Nat)
    (plans : List Plan) : Option Plan × (String → Option PlanScoreBreakdown) :=
  let scored := scoredDict P.memory P.decay_half_life_days now plans
  if r < P.epsilon then (plans.get? (i % plans.length), scored)
  else (pyMaxBy (fun p => (scoredLookup scored p.fingerprint).final_score) plans, scored)

/-! ## Learning rule (source: `confidence_update`) -/

/-- `confidence_update`: `+0.08` for `"success"`, `+0.02` for
`"partial"`, and `-0.10` for everything else (the source's `else` branch,
which `"failure"` reaches); the new confidence is clamped to
`[0.05, 0.95]`.  Returns `(new_confidence, delta)`. -/
def confidence_update (prev : ℚ) (outcome : String) : ℚ × ℚ :=
  let delta : ℚ :=
    if outcome = "success" then 0.08
    else if outcome = "partial" then 0.02
    else -0.10
  (max 0.05 (min 0.95 (prev + delta)), delta)

/-! ## Helper lemmas -/

lemma confidence_update_fst_mem (c : ℚ) (o : String) :
    0.05 ≤ (confidence_update c o).1 ∧ (confidence_update c o).1 ≤ 0.95 := by
  unfold confidence_update
  refine ⟨le_max_left _ _, max_le (by norm_num) (min_le_left _ _)⟩

lemma foldl_confidence_update_mem (os : List String) (c : ℚ)
    (hc : 0.05 ≤ c ∧ c ≤ 0.95) :
    0.05 ≤ os.foldl (fun a o => (confidence_update a o).1) c ∧
      os.foldl (fun a o => (confidence_update a o).1) c ≤ 0.95 := by
  induction os generalizing c with
  | nil => exact hc
  | cons o os ih => exact ih _ (confidence_update_fst_mem c o)

/-- Claim C3: `confidence_update` returns delta `+0.08` for success,
`+0.02` for partial and `-0.10` for failure, clamps the new confidence to
`[0.05, 0.95]`, and after any starting confidence and any (non-empty)
sequence of outcomes applied through it the confidence lies in
`[0.05, 0.95]`. -/
theorem confidence_update_spec (prev : ℚ) :
    (confidence_update prev "success").2 = 0.08 ∧
    (confidence_update prev "partial").2 = 0.02 ∧
    (confidence_update prev "failure").2 = -0.10 ∧
    (∀ outcome : String,
      (confidence_update prev outcome).1 =
        max 0.05 (min 0.95 (prev + (confidence_update prev outcome).2))) ∧
    (∀ (o : String) (os : List String),
      0.05 ≤ (o :: os).foldl (fun a out => (confidence_update a out).1) prev ∧
        (o :: os).foldl (fun a out => (confidence_update a out).1) prev ≤ 0.95) := by
  refine ⟨rfl, rfl, rfl, fun outcome => rfl, fun o os => ?_⟩
  exact foldl_confidence_update_mem os _ (confidence_update_fst_mem prev o)

/-- Claim C4 (counterexample): on the outcome string `"bogus"`, which is
none of the three enumerated kinds, `confidence_update` does not fail:
it silently returns the failure behaviour (`delta = -0.10`), refuting
the claim that unrecognized outcomes raise an `InvalidOutcome` error
(the source has no error path at all: its `else` branch catches every
non-success, non-partial outcome). -/
theorem confidence_update_unknown_outcome_no_error :
    ("bogus" ≠ "success" ∧ "bogus" ≠ "failure" ∧ "bogus" ≠ "partial") ∧
    confidence_update 0.5 "bogus" = (0.4, -0.10) ∧
    confidence_update 0.5 "bogus" = confidence_update 0.5 "failure" := by
  refine ⟨by decide, ?_, ?_⟩ <;>
    · simp [confidence_update, Prod.ext_iff]
      try norm_num

/-- Claim C4 (amended): every outcome outside `{"success", "partial"}` —
in particular every string outside the three enumerated kinds — is
silently given the failure delta `-0.10`; `confidence_update` behaves on
it exactly as on `"failure"` and never raises. -/
theorem confidence_update_unknown_outcome_as_failure (prev : ℚ) (o : String)
    (h1 : o ≠ "success") (h2 : o ≠ "partial") :
    confidence_update prev o = confidence_update prev "failure" := by
  simp [confidence_update, h1, h2]

theorem confidence_update_unknown_outcome_as_failure_witness :
    ("bogus2" ≠ "success" ∧ "bogus2" ≠ "partial") ∧
    confidence_update 0.5 "bogus2" = confidence_update 0.5 "failure" :=
  ⟨by decide, confidence_update_unknown_outcome_as_failure 0.5 "bogus2"
    (by decide) (by decide)⟩

/-- Claim C8: when the durable write inside `append` fails, the error
propagates to the caller and none of the in-memory aggregates (records,
confidence, counters, last-seen, context history) nor the durable log
changes. -/
theorem append_durability_failure_keeps_state (s : StoreState) (rec : EpisodicRecord) :
    (s.appendDurable rec false).2 = some () ∧
    (s.appendDurable rec false).1 = s ∧
    (s.appendDurable rec false).1.durable = s.durable ∧
    (s.appendDurable rec false).1.mem.records = s.mem.records ∧
    (s.appendDurable rec false).1.mem.confidence = s.mem.confidence ∧
    (s.appendDurable rec false).1.mem.successes = s.mem.successes ∧
    (s.appendDurable rec false).1.mem.failures = s.mem.failures ∧
    (s.appendDurable rec false).1.mem.partials = s.mem.partials ∧
    (s.appendDurable rec false).1.mem.last_ts = s.mem.last_ts ∧
    (s.appendDurable rec false).1.mem.context_history = s.mem.context_history :=
  ⟨rfl, rfl, rfl, rfl, rfl, rfl, rfl, rfl, rfl, rfl⟩

/-- Claim C10: appending a record whose outcome is neither `"success"`
nor `"failure"` (including strings outside the three enumerated kinds)
never fails in the store, and `get_stats` then shows the partial count
incremented by one with the success and failure counts unchanged. -/
theorem append_unrecognized_outcome_increments_partials (s : StoreState)
    (rec : EpisodicRecord) (h1 : rec.outcome ≠ "success") (h2 : rec.outcome ≠ "failure") :
    (s.appendDurable rec true).2 = none ∧
    ((s.appendDurable rec true).1.mem.get_stats rec.fingerprint).success =
      (s.mem.get_stats rec.fingerprint).success ∧
    ((s.appendDurable rec true).1.mem.get_stats rec.fingerprint).failure =
      (s.mem.get_stats rec.fingerprint).failure ∧
    ((s.appendDurable rec true).1.mem.get_stats rec.fingerprint).partialCount =
      (s.mem.get_stats rec.fingerprint).partialCount + 1 := by
  simp [StoreState.appendDurable, StoreState.append, EpisodicMemory.ingest,
    EpisodicMemory.index_record, EpisodicMemory.get_stats, h1, h2]

def wRec : EpisodicRecord where
  fingerprint := "abc123"
  goal := "g"
  context_tags := []
  steps := ["s"]
  outcome := "weird"
  score_delta := 0
  confidence_after := 0.5
  ts := 0
  notes := ""

theorem append_unrecognized_outcome_increments_partials_witness :
    (wRec.outcome ≠ "success" ∧ wRec.outcome ≠ "failure") ∧
    (((openStore []).appendDurable wRec true).2 = none ∧
      (((openStore []).appendDurable wRec true).1.mem.get_stats wRec.fingerprint).success =
        ((openStore []).mem.get_stats wRec.fingerprint).success ∧
      (((openStore []).appendDurable wRec true).1.mem.get_stats wRec.fingerprint).failure =
        ((openStore []).mem.get_stats wRec.fingerprint).failure ∧
      (((openStore []).appendDurable wRec true).1.mem.get_stats wRec.fingerprint).partialCount =
        ((openStore []).mem.get_stats wRec.fingerprint).partialCount + 1) :=
  ⟨⟨by decide, by decide⟩,
    append_unrecognized_outcome_increments_partials (openStore []) wRec (by decide) (by decide)⟩

def c9Plan : Plan where
  goal := "g"
  context_tags := []
  steps := ["s"]
  deps := []
  fingerprint := "A"

/-- Claim C9 (counterexample): constructing the planner with
`epsilon = 1.5`, which is outside `[0, 1]`, does not fail — the source
constructor performs no validation and no `ConfigurationError` exists —
and selection then runs with the out-of-range epsilon (here the draw
`r = 0.9 < 1.5` makes it always explore). -/
theorem init_accepts_out_of_range_epsilon :
    ¬ ((3 : ℚ) / 2 ≤ 1) ∧
    (MemoryConditionedPlanner.init EpisodicMemory.empty 14 (3 / 2) 42).epsilon = 3 / 2 ∧
    (select_plan (MemoryConditionedPlanner.init EpisodicMemory.empty 14 (3 / 2) 42)
        0 (9 / 10) 0 [c9Plan]).1 = some c9Plan := by
  refine ⟨by norm_num, rfl, ?_⟩
  simp [select_plan, MemoryConditionedPlanner.init]
  norm_num

/-- Claim C9 (amended): construction performs no validation: for every
epsilon (in range or not) it succeeds and stores the configuration
unchanged, so selection runs with whatever epsilon was supplied. -/
theorem init_stores_config_unvalidated (m : EpisodicMemory) (hl eps : ℚ) (seed : Nat) :
    (MemoryConditionedPlanner.init m hl eps seed).epsilon = eps ∧
    (MemoryConditionedPlanner.init m hl eps seed).decay_half_life_days = hl ∧
    (MemoryConditionedPlanner.init m hl eps seed).memory = m ∧
    (MemoryConditionedPlanner.init m hl eps seed).seed = seed :=
  ⟨rfl, rfl, rfl, rfl⟩

lemma foldl_storeAppend_durable (rs : List EpisodicRecord) (s : StoreState) :
    (rs.foldl StoreState.append s).durable = s.durable ++ rs := by
  induction rs generalizing s with
  | nil => simp
  | cons r rs ih => simp [ih, StoreState.append]

lemma foldl_storeAppend_mem (rs : List EpisodicRecord) (s : StoreState) :
    (rs.foldl StoreState.append s).mem = rs.foldl EpisodicMemory.ingest s.mem := by
  induction rs generalizing s with
  | nil => rfl
  | cons r rs ih => simpa using ih (s.append r)

/-- Claim C2: appending any finite sequence of records to a freshly
opened store and then reopening a store from the resulting durable log
yields in-memory aggregates (record list, confidence, counts, last-seen
timestamps and context histories, for every fingerprint) identical to
the in-memory state after the one-session appends. -/
theorem replay_determinism (rs : List EpisodicRecord) :
    (openStore ((rs.foldl StoreState.append (openStore [])).durable)).mem =
      (rs.foldl StoreState.append (openStore [])).mem := by
  have hd : (rs.foldl StoreState.append (openStore [])).durable = rs := by
    rw [foldl_storeAppend_durable]
    rfl
  rw [hd, foldl_storeAppend_mem]
  rfl

/-- Claim C1: for every store state, half-life, current time and plan,
`score_plan` returns a breakdown whose `final_score` is the clamp to
`[0, 1]` of
`0.55 * base_confidence + 0.25 * evidence * (0.5 + 0.5 * similarity) + 0.20 * recency_weight`,
where `base_confidence` is the store's confidence for the plan's
fingerprint (default `0.5`), `evidence` is `0` with no recorded outcomes
and `(success - failure + 0.25 * partialCount) / total` otherwise, and
`similarity` is the average Jaccard similarity against the fingerprint's
context history (`0` with no history); in particular
`0 ≤ final_score ≤ 1`. -/
theorem score_plan_final_score_spec (m : EpisodicMemory) (hl now : ℚ) (plan : Plan) :
    (score_plan m hl now plan).final_score =
      max 0 (min 1
        (0.55 * ((m.confidence plan.fingerprint).getD 0.5 : ℝ) +
          0.25 *
            ((if m.successes plan.fingerprint + m.failures plan.fingerprint +
                  m.partials plan.fingerprint = 0 then (0 : ℚ)
              else ((m.successes plan.fingerprint : ℚ) - (m.failures plan.fingerprint : ℚ) +
                  0.25 * (m.partials plan.fingerprint : ℚ)) /
                ((m.successes plan.fingerprint + m.failures plan.fingerprint +
                    m.partials plan.fingerprint : ℕ) : ℚ)) : ℝ) *
            (0.5 + 0.5 *
              ((if m.context_history plan.fingerprint = [] then (0 : ℚ)
                else ((m.context_history plan.fingerprint).map
                    (fun past => jaccard_similarity plan.context_tags past)).sum /
                  (((m.context_history plan.fingerprint).length : ℕ) : ℚ)) : ℝ)) +
          0.20 * recency_weight hl now (m.last_ts plan.fingerprint))) ∧
    0 ≤ (score_plan m hl now plan).final_score ∧
    (score_plan m hl now plan).final_score ≤ 1 := by
  refine ⟨?_, le_max_left _ _, max_le (by norm_num) (min_le_left _ _)⟩
  unfold score_plan EpisodicMemory.get_confidence EpisodicMemory.get_stats
    EpisodicMemory.get_context_history EpisodicMemory.get_last_ts
  by_cases h : m.successes plan.fingerprint + m.failures plan.fingerprint +
      m.partials plan.fingerprint = 0
  · simp only [h, if_pos, List.length_map]
    norm_num
  · have hmax : max 1 (m.successes plan.fingerprint + m.failures plan.fingerprint +
        m.partials plan.fingerprint) =
        m.successes plan.fingerprint + m.failures plan.fingerprint +
          m.partials plan.fingerprint :=
      max_eq_right (Nat.one_le_iff_ne_zero.mpr h)
    simp only [h, hmax, List.length_map, if_false]
    split_ifs with hc
    · push_cast
      ring
    · push_cast
      ring

/-- Claim C6: fingerprinting is a pure function of the goal and the
ordered step list only.  Whenever two `(goal, steps)` pairs agree after
normalization — the goal trimmed and lowercased, each step trimmed,
lowercased and whitespace-collapsed, exactly as the source normalizes
them (`fingerprint_plan` and `normalize_step`) — the fingerprints agree,
for every hash function; and two `Plan`s with those goals/steps get the
same stored fingerprint regardless of their `context_tags` and `deps`,
which `fingerprint_plan` never reads. -/
theorem fingerprint_plan_normalization_invariance (hash : String → String)
    (g₁ g₂ : String) (s₁ s₂ : List String)
    (hg : pyLower (pyStrip g₁) = pyLower (pyStrip g₂))
    (hs : s₁.map normalize_step = s₂.map normalize_step) :
    fingerprint_plan hash g₁ s₁ = fingerprint_plan hash g₂ s₂ ∧
    ∀ p q : Plan, p.goal = g₁ → p.steps = s₁ → q.goal = g₂ → q.steps = s₂ →
      planFingerprint hash p = planFingerprint hash q := by
  have h1 : fingerprint_plan hash g₁ s₁ = fingerprint_plan hash g₂ s₂ := by
    unfold fingerprint_plan
    rw [hg, hs]
  refine ⟨h1, fun p q hpg hps hqg hqs => ?_⟩
  unfold planFingerprint
  rw [hpg, hps, hqg, hqs]
  exact h1

theorem fingerprint_plan_normalization_invariance_witness :
    (pyLower (pyStrip "Debug ") = pyLower (pyStrip "debug") ∧
      ["  Run Test "].map normalize_step = ["run test"].map normalize_step) ∧
    fingerprint_plan id "Debug " ["  Run Test "] = fingerprint_plan id "debug" ["run test"] :=
  ⟨⟨by decide, by decide⟩,
    (fingerprint_plan_normalization_invariance id "Debug " "debug" ["  Run Test "] ["run test"]
      (by decide) (by decide)).1⟩

lemma recency_weight_pos_halflife (hl now ts : ℚ) (hhl : 0 < hl) :
    recency_weight hl now (some ts) =
      (0.5 : ℝ) ^ (((max 0 (now - ts) / (60 * 60 * 24) / hl : ℚ) : ℝ)) := by
  simp only [recency_weight]
  rw [if_neg (not_le.mpr hhl)]

/-- Claim C7: the recency weight is `0` for a never-seen fingerprint,
`1` whenever the half-life is non-positive, equals
`0.5 ^ (age_days / half_life_days)` with
`age_days = max(0, now - last_seen) / 86400` for a positive half-life,
is `1` at age `0`, strictly decreases as `now` increases past
`last_seen`, and tends to `0` as the age tends to infinity. -/
theorem recency_weight_properties :
    (∀ hl now : ℚ, recency_weight hl now none = 0) ∧
    (∀ hl now ts : ℚ, hl ≤ 0 → recency_weight hl now (some ts) = 1) ∧
    (∀ hl now ts : ℚ, now ≤ ts → recency_weight hl now (some ts) = 1) ∧
    (∀ hl now ts : ℚ, 0 < hl →
      recency_weight hl now (some ts) =
        (0.5 : ℝ) ^ ((((max 0 (now - ts) : ℚ) : ℝ) / 86400) / (hl : ℝ))) ∧
    (∀ hl ts now₁ now₂ : ℚ, 0 < hl → ts ≤ now₁ → now₁ < now₂ →
      recency_weight hl now₂ (some ts) < recency_weight hl now₁ (some ts)) ∧
    (∀ hl ts : ℚ, 0 < hl →
      Filter.Tendsto (fun now : ℚ => recency_weight hl now (some ts)) Filter.atTop
        (nhds 0)) := by
  refine ⟨fun hl now => rfl, ?_, ?_, ?_, ?_, ?_⟩
  · intro hl now ts h
    simp only [recency_weight]
    rw [if_pos h]
  · intro hl now ts h
    by_cases hhl : hl ≤ 0
    · simp only [recency_weight]
      rw [if_pos hhl]
    · rw [recency_weight_pos_halflife hl now ts (not_le.mp hhl)]
      have hmax : max 0 (now - ts) = 0 := max_eq_left (by linarith)
      rw [hmax]
      norm_num
  · intro hl now ts hhl
    rw [recency_weight_pos_halflife hl now ts hhl]
    push_cast
    norm_num
  · intro hl ts now₁ now₂ hhl h₁ h₂
    rw [recency_weight_pos_halflife hl now₁ ts hhl, recency_weight_pos_halflife hl now₂ ts hhl]
    have he : (max 0 (now₁ - ts) / (60 * 60 * 24) / hl : ℚ) <
        (max 0 (now₂ - ts) / (60 * 60 * 24) / hl : ℚ) := by
      have e₁ : max 0 (now₁ - ts) = now₁ - ts := max_eq_right (by linarith)
      have e₂ : max 0 (now₂ - ts) = now₂ - ts := max_eq_right (by linarith)
      rw [e₁, e₂]
      have h86400 : (0 : ℚ) < 60 * 60 * 24 := by norm_num
      exact div_lt_div_of_pos_right (div_lt_div_of_pos_right (by linarith) h86400) hhl
    exact Real.rpow_lt_rpow_of_exponent_gt (by norm_num) (by norm_num)
      (by exact_mod_cast he)
  · intro hl ts hhl
    have hc : Filter.Tendsto
        (fun now : ℚ => (((max 0 (now - ts) / (60 * 60 * 24) / hl : ℚ) : ℝ)))
        Filter.atTop Filter.atTop := by
      rw [Filter.tendsto_atTop_atTop]
      intro b
      obtain ⟨q, hq⟩ := exists_rat_gt b
      refine ⟨ts + q * (60 * 60 * 24) * hl, fun now hnow => ?_⟩
      have hstep : (q : ℚ) ≤ max 0 (now - ts) / (60 * 60 * 24) / hl := by
        have h1 : q * (60 * 60 * 24) * hl ≤ now - ts := by linarith
        have h2 : q * (60 * 60 * 24) * hl ≤ max 0 (now - ts) :=
          le_trans h1 (le_max_right _ _)
        have h3 : q * (60 * 60 * 24) * hl / (60 * 60 * 24) / hl ≤
            max 0 (now - ts) / (60 * 60 * 24) / hl := by
          gcongr
        have h4 : q * (60 * 60 * 24) * hl / (60 * 60 * 24) / hl = q := by
          field_simp
          ring
        rwa [h4] at h3
      calc b ≤ (q : ℝ) := le_of_lt hq
        _ ≤ (((max 0 (now - ts) / (60 * 60 * 24) / hl : ℚ) : ℝ)) := by
            exact_mod_cast hstep
    have hbase : Filter.Tendsto (fun x : ℝ => (0.5 : ℝ) ^ x) Filter.atTop (nhds 0) :=
      tendsto_rpow_atTop_of_base_lt_one 0.5 (by norm_num) (by norm_num)
    refine Filter.Tendsto.congr (fun now => ?_) (hbase.comp hc)
    exact (recency_weight_pos_halflife hl now ts hhl).symm

theorem recency_weight_properties_witness :
    recency_weight 14 100 none = 0 ∧
    ((-2 : ℚ) ≤ 0 ∧ recency_weight (-2) 100 (some 50) = 1) ∧
    ((100 : ℚ) ≤ 100 ∧ recency_weight 14 100 (some 100) = 1) ∧
    (0 < (14 : ℚ) ∧ (100 : ℚ) ≤ 200 ∧ (200 : ℚ) < 300 ∧
      recency_weight 14 300 (some 100) < recency_weight 14 200 (some 100)) ∧
    (0 < (14 : ℚ) ∧
      Filter.Tendsto (fun now : ℚ => recency_weight 14 now (some 100)) Filter.atTop
        (nhds 0)) :=
  ⟨recency_weight_properties.1 14 100,
    ⟨by norm_num, recency_weight_properties.2.1 (-2) 100 50 (by norm_num)⟩,
    ⟨le_refl _, recency_weight_properties.2.2.1 14 100 100 (le_refl _)⟩,
    ⟨by norm_num, by norm_num, by norm_num,
      recency_weight_properties.2.2.2.2.1 14 100 200 300 (by norm_num) (by norm_num)
        (by norm_num)⟩,
    ⟨by norm_num, recency_weight_properties.2.2.2.2.2 14 100 (by norm_num)⟩⟩

lemma pyMaxBy_aux {α : Type} (key : α → ℝ) (l : List α) :
    ∀ q : α, ∃ c l₁ l₂,
      l.foldl (pyMaxStep key) (some q) = some c ∧
      q :: l = l₁ ++ c :: l₂ ∧
      (∀ p ∈ l₁, key p < key c) ∧
      (∀ p ∈ l₂, key p ≤ key c) ∧
      key q ≤ key c := by
  induction l with
  | nil =>
    intro q
    exact ⟨q, [], [], rfl, rfl, by simp, by simp, le_refl _⟩
  | cons p ps ih =>
    intro q
    simp only [List.foldl_cons]
    by_cases h : key q < key p
    · have hstep : pyMaxStep key (some q) p = some p := by
        simp [pyMaxStep, if_pos h]
      rw [hstep]
      obtain ⟨c, l₁, l₂, hfold, hdec, hlt, hle, hpc⟩ := ih p
      refine ⟨c, q :: l₁, l₂, hfold, ?_, ?_, hle, le_of_lt (lt_of_lt_of_le h hpc)⟩
      · rw [List.cons_append, ← hdec]
      · intro x hx
        rcases List.mem_cons.mp hx with rfl | hx'
        · exact lt_of_lt_of_le h hpc
        · exact hlt x hx'
    · have hstep : pyMaxStep key (some q) p = some q := by
        simp [pyMaxStep, if_neg h]
      rw [hstep]
      obtain ⟨c, l₁, l₂, hfold, hdec, hlt, hle, hqc⟩ := ih q
      cases l₁ with
      | nil =>
        simp only [List.nil_append] at hdec
        injection hdec with h1 h2
        refine ⟨c, [], p :: l₂, hfold, ?_, by simp, ?_, hqc⟩
        · simp only [List.nil_append]
          rw [← h1, h2]
        · intro x hx
          rcases List.mem_cons.mp hx with rfl | hx'
          · rw [← h1]
            exact not_lt.mp h
          · exact hle x hx'
      | cons y l₁' =>
        simp only [List.cons_append] at hdec
        injection hdec with h1 h2
        subst h1
        refine ⟨c, q :: p :: l₁', l₂, hfold, ?_, ?_, hle, hqc⟩
        · simp only [List.cons_append, List.cons.injEq, true_and]
          rw [← h2]
        · intro x hx
          have hqlt : key q < key c := hlt q (List.mem_cons_self q l₁')
          rcases List.mem_cons.mp hx with rfl | hx'
          · exact hqlt
          · rcases List.mem_cons.mp hx' with rfl | hx''
            · exact lt_of_le_of_lt (not_lt.mp h) hqlt
            · exact hlt x (List.mem_cons_of_mem q hx'')

lemma pyMaxBy_first_argmax {α : Type} (key : α → ℝ) (p : α) (ps : List α) :
    ∃ c l₁ l₂,
      pyMaxBy key (p :: ps) = some c ∧
      p :: ps = l₁ ++ c :: l₂ ∧
      (∀ x ∈ l₁, key x < key c) ∧
      (∀ x ∈ l₂, key x ≤ key c) := by
  obtain ⟨c, l₁, l₂, hfold, hdec, hlt, hle, _⟩ := pyMaxBy_aux key ps p
  exact ⟨c, l₁, l₂, hfold, hdec, hlt, hle⟩

lemma pyMaxBy_foldl_congr {α : Type} (k₁ k₂ : α → ℝ) (l : List α) :
    ∀ acc : Option α,
      (∀ x ∈ l, k₁ x = k₂ x) → (∀ q : α, acc = some q → k₁ q = k₂ q) →
      l.foldl (pyMaxStep k₁) acc = l.foldl (pyMaxStep k₂) acc := by
  induction l with
  | nil => intro acc _ _; rfl
  | cons p ps ih =>
    intro acc hl hacc
    simp only [List.foldl_cons]
    have hstep : pyMaxStep k₁ acc p = pyMaxStep k₂ acc p := by
      cases acc with
      | none => rfl
      | some q =>
        simp only [pyMaxStep]
        rw [hacc q rfl, hl p (List.mem_cons_self p ps)]
    rw [hstep]
    refine ih _ (fun x hx => hl x (List.mem_cons_of_mem p hx)) ?_
    intro q hq
    cases acc with
    | none =>
      simp only [pyMaxStep] at hq
      injection hq with h1
      subst h1
      exact hl p (List.mem_cons_self p ps)
    | some q' =>
      simp only [pyMaxStep] at hq
      by_cases hc : k₂ q' < k₂ p
      · rw [if_pos hc] at hq
        injection hq with h1
        subst h1
        exact hl p (List.mem_cons_self p ps)
      · rw [if_neg hc] at hq
        injection hq with h1
        subst h1
        exact hacc q' rfl

lemma pyMaxBy_congr {α : Type} (k₁ k₂ : α → ℝ) (l : List α)
    (h : ∀ x ∈ l, k₁ x = k₂ x) : pyMaxBy k₁ l = pyMaxBy k₂ l :=
  pyMaxBy_foldl_congr k₁ k₂ l none h (fun _ hq => nomatch hq)

lemma scoredDict_foldl_not_mem (m : EpisodicMemory) (hl now : ℚ) (l : List Plan)
    (fp : String) (h : ∀ x ∈ l, x.fingerprint ≠ fp) :
    ∀ acc, (l.foldl (scoredStep m hl now) acc) fp = acc fp := by
  induction l with
  | nil => intro acc; rfl
  | cons p ps ih =>
    intro acc
    simp only [List.foldl_cons]
    rw [ih (fun x hx => h x (List.mem_cons_of_mem p hx))]
    simp only [scoredStep]
    rw [if_neg (fun heq => h p (List.mem_cons_self p ps) heq.symm)]

lemma scoredDict_lookup_of_nodup (m : EpisodicMemory) (hl now : ℚ) (l : List Plan)
    (hnd : (l.map Plan.fingerprint).Nodup) (p : Plan) (hp : p ∈ l) :
    ∀ acc, (l.foldl (scoredStep m hl now) acc) p.fingerprint =
      some (score_plan m hl now p) := by
  induction l with
  | nil => cases hp
  | cons x xs ih =>
    simp only [List.map_cons, List.nodup_cons] at hnd
    obtain ⟨hx_not, hnd'⟩ := hnd
    intro acc
    simp only [List.foldl_cons]
    rcases List.mem_cons.mp hp with rfl | hp'
    · rw [scoredDict_foldl_not_mem m hl now xs p.fingerprint
        (fun y hy heq => hx_not (heq ▸ List.mem_map_of_mem Plan.fingerprint hy))]
      simp [scoredStep]
    · exact ih hnd' hp' _

/-- Claim C5 (amended): for every non-empty candidate list whose
fingerprints are pairwise distinct, with `epsilon = 0` and a
non-negative rng draw the selector returns the first candidate attaining
the maximum `final_score` of its own score breakdown (earlier candidates
all score strictly lower, later ones no higher), and the same candidate
is returned for every rng draw, choice index and seed. -/
theorem select_plan_epsilon_zero_first_max (m : EpisodicMemory) (hl : ℚ) (seed : Nat)
    (now r : ℚ) (i : Nat) (p : Plan) (ps : List Plan) (hr : 0 ≤ r)
    (hnd : ((p :: ps).map Plan.fingerprint).Nodup) :
    ∃ c l₁ l₂,
      (select_plan (MemoryConditionedPlanner.init m hl 0 seed) now r i (p :: ps)).1 =
        some c ∧
      p :: ps = l₁ ++ c :: l₂ ∧
      (∀ x ∈ l₁, (score_plan m hl now x).final_score < (score_plan m hl now c).final_score) ∧
      (∀ x ∈ l₂, (score_plan m hl now x).final_score ≤ (score_plan m hl now c).final_score) ∧
      ∀ (seed' : Nat) (r' : ℚ) (i' : Nat), 0 ≤ r' →
        (select_plan (MemoryConditionedPlanner.init m hl 0 seed') now r' i' (p :: ps)).1 =
          some c := by
  have hsel : ∀ (seed' : Nat) (r' : ℚ) (i' : Nat), 0 ≤ r' →
      (select_plan (MemoryConditionedPlanner.init m hl 0 seed') now r' i' (p :: ps)).1 =
        pyMaxBy
          (fun x => (scoredLookup (scoredDict m hl now (p :: ps)) x.fingerprint).final_score)
          (p :: ps) := by
    intro seed' r' i' hr'
    simp only [select_plan, MemoryConditionedPlanner.init]
    rw [if_neg (not_lt.mpr hr')]
  have hkeys : ∀ x ∈ p :: ps,
      (scoredLookup (scoredDict m hl now (p :: ps)) x.fingerprint).final_score =
        (score_plan m hl now x).final_score := by
    intro x hx
    unfold scoredLookup scoredDict
    rw [scoredDict_lookup_of_nodup m hl now (p :: ps) hnd x hx]
    rfl
  have hmax := pyMaxBy_congr
    (fun x => (scoredLookup (scoredDict m hl now (p :: ps)) x.fingerprint).final_score)
    (fun x => (score_plan m hl now x).final_score) (p :: ps) hkeys
  obtain ⟨c, l₁, l₂, hfold, hdec, hlt, hle⟩ :=
    pyMaxBy_first_argmax (fun x => (score_plan m hl now x).final_score) p ps
  refine ⟨c, l₁, l₂, ?_, hdec, hlt, hle, ?_⟩
  · rw [hsel seed r i hr, hmax]
    exact hfold
  · intro seed' r' i' hr'
    rw [hsel seed' r' i' hr', hmax]
    exact hfold

def wPA : Plan where
  goal := "g1"
  context_tags := []
  steps := ["s1"]
  deps := []
  fingerprint := "A"

def wPB : Plan where
  goal := "g2"
  context_tags := []
  steps := ["s2"]
  deps := []
  fingerprint := "B"

theorem select_plan_epsilon_zero_first_max_witness :
    ((0 : ℚ) ≤ 1 / 2 ∧ (([wPA, wPB]).map Plan.fingerprint).Nodup) ∧
    ∃ c l₁ l₂,
      (select_plan (MemoryConditionedPlanner.init EpisodicMemory.empty 14 0 42)
          0 (1 / 2) 0 [wPA, wPB]).1 = some c ∧
      [wPA, wPB] = l₁ ++ c :: l₂ ∧
      (∀ x ∈ l₁,
        (score_plan EpisodicMemory.empty 14 0 x).final_score <
          (score_plan EpisodicMemory.empty 14 0 c).final_score) ∧
      (∀ x ∈ l₂,
        (score_plan EpisodicMemory.empty 14 0 x).final_score ≤
          (score_plan EpisodicMemory.empty 14 0 c).final_score) ∧
      ∀ (seed' : Nat) (r' : ℚ) (i' : Nat), 0 ≤ r' →
        (select_plan (MemoryConditionedPlanner.init EpisodicMemory.empty 14 0 seed')
            0 r' i' [wPA, wPB]).1 = some c :=
  ⟨⟨by norm_num, by decide⟩,
    select_plan_epsilon_zero_first_max EpisodicMemory.empty 14 42 0 (1 / 2) 0 wPA [wPB]
      (by norm_num) (by decide)⟩

def cxRec : EpisodicRecord where
  fingerprint := "A"
  goal := "g"
  context_tags := ["x"]
  steps := ["s"]
  outcome := "success"
  score_delta := 0.08
  confidence_after := 0.58
  ts := 100
  notes := ""

/-- A store state holding one successful episode for fingerprint `"A"`
observed in context `["x"]`. -/
def cxMem : EpisodicMemory := EpisodicMemory.ingest EpisodicMemory.empty cxRec

/-- Same fingerprint `"A"` as `cxP2` but scored in the matching context
`["x"]`, so its own breakdown is strictly higher. -/
def cxP1 : Plan where
  goal := "g"
  context_tags := ["x"]
  steps := ["s"]
  deps := []
  fingerprint := "A"

def cxP2 : Plan where
  goal := "g"
  context_tags := []
  steps := ["s"]
  deps := []
  fingerprint := "A"

/-- Claim C5 (counterexample): with `epsilon = 0` the selector does not
always return the candidate whose own score breakdown has the maximum
`final_score`.  The `scored` dictionary is keyed by fingerprint, so when
two candidates share a fingerprint the later one overwrites the entry
and `max` compares every such candidate under one shared value: on the
list `[cxP2, cxP1]` the selector returns `cxP2` although `cxP1`'s own
breakdown scores strictly higher (`0.769 > 0.644`). -/
theorem select_plan_shared_fingerprint_counterexample :
    (select_plan (MemoryConditionedPlanner.init cxMem 0 0 42) 100 (1 / 2) 0
        [cxP2, cxP1]).1 = some cxP2 ∧
    (score_plan cxMem 0 100 cxP2).final_score <
      (score_plan cxMem 0 100 cxP1).final_score ∧
    cxP2 ≠ cxP1 := by
  have hj1 : jaccard_similarity ["x"] ["x"] = 1 := by simp [jaccard_similarity]
  have hj2 : jaccard_similarity [] ["x"] = 0 := by simp [jaccard_similarity]
  have hscore1 : (score_plan cxMem 0 100 cxP1).final_score = 0.769 := by
    simp only [score_plan, cxMem, cxRec, cxP1, EpisodicMemory.ingest,
      EpisodicMemory.index_record, EpisodicMemory.empty, EpisodicMemory.get_confidence,
      EpisodicMemory.get_stats, EpisodicMemory.get_last_ts,
      EpisodicMemory.get_context_history, recency_weight]
    simp [hj1]
    norm_num
  have hscore2 : (score_plan cxMem 0 100 cxP2).final_score = 0.644 := by
    simp only [score_plan, cxMem, cxRec, cxP2, EpisodicMemory.ingest,
      EpisodicMemory.index_record, EpisodicMemory.empty, EpisodicMemory.get_confidence,
      EpisodicMemory.get_stats, EpisodicMemory.get_last_ts,
      EpisodicMemory.get_context_history, recency_weight]
    simp [hj2]
    norm_num
  refine ⟨?_, by rw [hscore1, hscore2]; norm_num, by decide⟩
  simp only [select_plan, MemoryConditionedPlanner.init]
  rw [if_neg (by norm_num : ¬ ((1 : ℚ) / 2 < 0))]
  simp only [pyMaxBy, List.foldl_cons, List.foldl_nil, pyMaxStep, cxP1, cxP2]
  rw [if_neg (lt_irrefl _)]
